import Mathlib

/-!
Shallow embedding of `src/VectorCodec.hpp` (MarcelPiNacy/VectorCodec).

Machine words are modelled as `Nat` with explicit reduction modulo `2^32`
(`int32_t`/`uint32_t` lanes) or `2^64` (`size_t`).  The eight lanes of a
256-bit vector are a `List Nat` of length 8, processed lane 0 first, which
matches the order of the `_mm256_extract_epi32` store sequences and of the
payload cursor advances in the source.  The output buffer is a `List Nat`
of bytes; `List.set` drops writes past the end of the list, corresponding
to a caller buffer of exactly that many bytes, and out-of-range reads give
0.  `__builtin_clz`/`__lzcnt` is modelled with the `lzcnt` semantics
`clz 0 = 32` that the code relies on for zero residuals.
-/

namespace VectorCodec

/-- 2^32, the modulus of 32-bit lane arithmetic. -/
def U32 : Nat := 4294967296

/-- one lane of `_mm256_sub_epi32`: 32-bit modular subtraction. -/
def sub32 (a b : Nat) : Nat := (U32 + a - b % U32) % U32

/-- bitwise complement of a 32-bit word. -/
def not32 (a : Nat) : Nat := (U32 - 1) ^^^ a

/-- one lane of `_mm256_andnot_si256 x y = ~x & y`. -/
def andnot32 (x y : Nat) : Nat := not32 x &&& y

/-- the trailing-zero-bit count cascade of `Encode_AVX2`/`EncodeQuick_AVX2`:
`tmp = andnot(vec - 1, vec)` isolates the lowest set bit and the six masked
subtractions from 32 leave the trailing-zero count (32 for a zero lane).
Each `_mm256_andnot_si256(_mm256_cmpeq_epi32(...), set1(k))` subtracts `k`
exactly when the masked lane is nonzero. -/
def tzcount (v : Nat) : Nat :=
  let tmp := andnot32 (sub32 v 1) v
  let t := 32
  let t := t - (if tmp = 0 then 0 else 1)
  let t := t - (if tmp &&& 0xffff = 0 then 0 else 16)
  let t := t - (if tmp &&& 0x00ff00ff = 0 then 0 else 8)
  let t := t - (if tmp &&& 0x0f0f0f0f = 0 then 0 else 4)
  let t := t - (if tmp &&& 0x33333333 = 0 then 0 else 2)
  let t := t - (if tmp &&& 0x55555555 = 0 then 0 else 1)
  t

/-- stored trailing-zero-byte field: `tzcounts >>= 3; tzcounts -= tzcounts >> 2`
(so 0,1,2,3,4 zero bytes give field values 0,1,2,3,3). -/
def tzField (v : Nat) : Nat :=
  let q := tzcount v >>> 3
  q - (q >>> 2)

/-- bit length of `v` computed by 32 halvings (enough for any 32-bit lane). -/
def bitsFuel : Nat → Nat → Nat
  | 0, _ => 0
  | f + 1, v => if v = 0 then 0 else bitsFuel f (v / 2) + 1

/-- count of leading zero bits of a 32-bit lane, with `clz32 0 = 32`
(the `lzcnt` semantics the code needs for zero residuals). -/
def clz32 (v : Nat) : Nat := 32 - bitsFuel 32 v

/-- payload width in bytes of one stripped lane:
`tmp = 4 - (lz - (lz == 3 ? 1 : 0))` with `lz` the leading-zero-byte count. -/
def laneWidth (v : Nat) : Nat :=
  let l := clz32 v >>> 3
  4 - (l - (if l = 3 then 1 else 0))

/-- stored leading-zero field: `lzcounts -= (lzcounts > 2 ? 1 : 0)`. -/
def lzField (v : Nat) : Nat :=
  let l := clz32 v >>> 3
  l - (if l > 2 then 1 else 0)

/-- slot hash of a residual: `tmp = d >> 8; (tmp ^ (tmp >> 16)) & 0xFF`
(`LSBDiscardedCount = 8`, `HashShift = 16`, `ModMask = 255`). -/
def hashIdx (d : Nat) : Nat :=
  let t := d >>> 8
  (t ^^^ (t >>> 16)) &&& 255

/-- the eight sequential `lookup[_mm256_extract_epi32(indices, k)] = ...`
stores, lane 0 first (a later lane overwrites an earlier one on collision). -/
def storeLanes (lookup idx vals : List Nat) : List Nat :=
  (List.zip idx vals).foldl (fun acc p => acc.set p.1 p.2) lookup

/-- one `_mm256_i32gather_epi32(lookup, indices, 4)`. -/
def gatherLanes (lookup idx : List Nat) : List Nat :=
  idx.map (fun i => lookup.getD i 0)

/-- byte `k` of a 32-bit word. -/
def byte (w k : Nat) : Nat := (w >>> (8 * k)) &&& 255

/-- an unconditional 4-byte little-endian store `*(uint32_t*)out = w` at byte
position `p`.  Writes past the end of the buffer are dropped (they would be
out-of-bounds writes of the C code on a buffer of that size). -/
def store32 (buf : List Nat) (p w : Nat) : List Nat :=
  ((((buf.set p (byte w 0)).set (p + 1) (byte w 1)).set
      (p + 2) (byte w 2)).set (p + 3) (byte w 3))

/-- a 4-byte little-endian load at byte position `p` (reads past the end of
the buffer give 0). -/
def load32 (buf : List Nat) (p : Nat) : Nat :=
  buf.getD p 0 + 256 * buf.getD (p + 1) 0 + 65536 * buf.getD (p + 2) 0 +
    16777216 * buf.getD (p + 3) 0

/-- the eight payload stores of one block: each lane does a full 4-byte store
of its stripped word at the cursor, then advances the cursor by only the
lane's width.  Returns the buffer and the final cursor. -/
def writeLanes (buf : List Nat) (pos : Nat) (vals widths : List Nat) :
    List Nat × Nat :=
  (List.zip vals widths).foldl
    (fun acc p => (store32 acc.1 acc.2 p.1, acc.2 + p.2)) (buf, pos)

/-- the 32-bit header word: lane `k`'s `lz` field at bits `2k..2k+1` (the
`_mm256_sllv_epi32` by 0,2,...,14) and its `tz` field at bits `16+2k..17+2k`
(the shifts 16,18,...,30), OR-reduced across lanes. -/
def headerWord (lz tz : List Nat) : Nat :=
  (List.range 8).foldl
    (fun acc k => acc ||| (lz.getD k 0 <<< (2 * k)) ||| (tz.getD k 0 <<< (16 + 2 * k))) 0

/-- state of the `Encode_AVX2` loop. -/
structure EncSt where
  lookup : List Nat
  prior : List Nat
  xprior : List Nat
  indices : List Nat
  buf : List Nat
  outPos : Nat
  headerIdx : Nat

/-- one iteration of the `Encode_AVX2` main loop on the 8 lane words `vs`,
following the source line by line: delta against `prior`; the eight lookup
stores at the indices saved in the previous iteration; rehash of the new
delta; xor with the `xprior` gathered in the previous iteration; gather of
the next `xprior`; trailing-zero stripping; the eight 4-byte payload stores
with data-dependent cursor advances; the 4-byte header store. -/
def encBlock (s : EncSt) (vs : List Nat) : EncSt :=
  let vec := List.zipWith sub32 vs s.prior
  let lookup' := storeLanes s.lookup s.indices vec
  let indices' := vec.map hashIdx
  let resid := List.zipWith (fun a b => a ^^^ b) vec s.xprior
  let xprior' := gatherLanes lookup' indices'
  let tz := resid.map tzField
  let strip := List.zipWith (fun v t => v >>> (t <<< 3)) resid tz
  let widths := strip.map laneWidth
  let lzf := strip.map lzField
  let bp := writeLanes s.buf s.outPos strip widths
  let buf' := store32 bp.1 (4 * s.headerIdx) (headerWord lzf tz)
  ⟨lookup', vs, xprior', indices', buf', bp.2, s.headerIdx + 1⟩

/-- lane words of one loop iteration: a full 8-word `_mm256_loadu_si256`, or
the `memcpy` of the tail into a zeroed vector when fewer than 8 remain. -/
def loadBlock (A : List Nat) : List Nat :=
  A.take 8 ++ List.replicate (8 - min A.length 8) 0

/-- the body of the do-while loop run `n` times, consuming 8 values per
iteration. -/
def encBlocksGo : Nat → List Nat → List (List Nat)
  | 0, _ => []
  | n + 1, A => loadBlock A :: encBlocksGo n (A.drop 8)

/-- iteration count of `do { ... } while (values < end)`: `⌈N/8⌉`, but at
least one because the body runs before the first test. -/
def encIters (n : Nat) : Nat := max 1 ((n + 7) / 8)

/-- the sequence of 8-lane blocks the encoder loop processes. -/
def blocks (A : List Nat) : List (List Nat) :=
  encBlocksGo (encIters A.length) A

/-- model of `VectorCodec::Encode` (`Encode_AVX2`): given the input words and
the initial contents of the caller's output buffer, returns the byte count
`out - out_begin` and the final buffer contents.  The payload cursor starts
at `(value_count + 1) / 2`; headers are stored from byte 0. -/
def Encode (A buf : List Nat) : Nat × List Nat :=
  let s := (blocks A).foldl encBlock
    ⟨List.replicate 256 0, List.replicate 8 0, List.replicate 8 0,
      List.replicate 8 0, buf, (A.length + 1) / 2, 0⟩
  (s.outPos, s.buf)

/-- state of the `EncodeQuick_AVX2` loop (no lookup table, no xor stage). -/
structure QEncSt where
  prior : List Nat
  buf : List Nat
  outPos : Nat
  headerIdx : Nat

/-- one iteration of the `EncodeQuick_AVX2` main loop: identical to
`encBlock` except the delta itself is the residual. -/
def encQuickBlock (s : QEncSt) (vs : List Nat) : QEncSt :=
  let vec := List.zipWith sub32 vs s.prior
  let tz := vec.map tzField
  let strip := List.zipWith (fun v t => v >>> (t <<< 3)) vec tz
  let widths := strip.map laneWidth
  let lzf := strip.map lzField
  let bp := writeLanes s.buf s.outPos strip widths
  let buf' := store32 bp.1 (4 * s.headerIdx) (headerWord lzf tz)
  ⟨vs, buf', bp.2, s.headerIdx + 1⟩

/-- model of `VectorCodec::EncodeQuick` (`EncodeQuick_AVX2`). -/
def EncodeQuick (A buf : List Nat) : Nat × List Nat :=
  let s := (blocks A).foldl encQuickBlock
    ⟨List.replicate 8 0, buf, (A.length + 1) / 2, 0⟩
  (s.outPos, s.buf)

/-- decoder width of a lane from its 2-bit `lz` field:
`4 - (lz + ((lz + 1) >> 2))`, giving 4,3,2,0 for fields 0,1,2,3. -/
def decWidth (lz : Nat) : Nat := 4 - (lz + ((lz + 1) >>> 2))

/-- exclusive running sums of the widths (the `_mm_slli_si128`-based scan
shifted by one lane before the gather). -/
def exclusive (ws : List Nat) : List Nat :=
  (ws.foldl (fun acc w => (acc.1 ++ [acc.2], acc.2 + w)) ([], 0)).1

/-- state of the `Decode_AVX2` loop. -/
structure DecSt where
  lookup : List Nat
  indices : List Nat
  xprior : List Nat
  prior : List Nat
  dataPos : Nat
  headerIdx : Nat

/-- one iteration of the `Decode_AVX2` loop: header load, per-lane widths and
exclusive offsets, the byte gather masked to each lane's width, the shift by
`8*tz`, the xor with the previous `xprior`, the eight lookup stores at the
previous indices, rehash and gather, and the add of `prior`.  Returns the
updated state and the 8 reconstructed lane words. -/
def decBlockVals (buf : List Nat) (s : DecSt) : DecSt × List Nat :=
  let header := load32 buf (4 * s.headerIdx)
  let lz := (List.range 8).map (fun k => (header >>> (2 * k)) &&& 3)
  let widths := lz.map decWidth
  let offs := exclusive widths
  let total := widths.foldl (· + ·) 0
  let raw := offs.map (fun o => load32 buf (s.dataPos + o))
  let masked := List.zipWith
    (fun r w => r &&& sub32 ((1 <<< (8 * w)) % U32) 1) raw widths
  let tz := (List.range 8).map (fun k => (header >>> (16 + 2 * k)) &&& 3)
  let resid := List.zipWith (fun v t => (v <<< (t <<< 3)) % U32) masked tz
  let vec := List.zipWith (fun a b => a ^^^ b) resid s.xprior
  let lookup' := storeLanes s.lookup s.indices vec
  let indices' := vec.map hashIdx
  let xprior' := gatherLanes lookup' indices'
  let vals := List.zipWith (fun d p => (d + p) % U32) vec s.prior
  (⟨lookup', indices', xprior', vals, s.dataPos + total, s.headerIdx + 1⟩, vals)

/-- the `while (true)` loop of `Decode_AVX2`.  The fuel argument is the exact
iteration count `value_count / 8 + 1` (one final iteration handles the tail,
even a tail of 0 values, exactly as the in-loop `value_count < 8` test
does); the base case is unreachable for that fuel. -/
def decLoop (buf : List Nat) : Nat → Nat → DecSt → List Nat
  | 0, _, _ => []
  | f + 1, cnt, s =>
    let r := decBlockVals buf s
    if cnt < 8 then r.2.take cnt
    else r.2 ++ decLoop buf f (cnt - 8) r.1

/-- model of `VectorCodec::Decode` (`Decode_AVX2`): the list of `value_count`
words written to `out`. -/
def Decode (buf : List Nat) (cnt : Nat) : List Nat :=
  decLoop buf (cnt / 8 + 1) cnt
    ⟨List.replicate 256 0, List.replicate 8 0, List.replicate 8 0,
      List.replicate 8 0, (cnt + 1) / 2, 0⟩

/-- state of the `DecodeQuick_AVX2` loop. -/
structure QDecSt where
  prior : List Nat
  dataPos : Nat
  headerIdx : Nat

/-- one iteration of the `DecodeQuick_AVX2` loop (no xor stage). -/
def decQuickBlockVals (buf : List Nat) (s : QDecSt) : QDecSt × List Nat :=
  let header := load32 buf (4 * s.headerIdx)
  let lz := (List.range 8).map (fun k => (header >>> (2 * k)) &&& 3)
  let widths := lz.map decWidth
  let offs := exclusive widths
  let total := widths.foldl (· + ·) 0
  let raw := offs.map (fun o => load32 buf (s.dataPos + o))
  let masked := List.zipWith
    (fun r w => r &&& sub32 ((1 <<< (8 * w)) % U32) 1) raw widths
  let tz := (List.range 8).map (fun k => (header >>> (16 + 2 * k)) &&& 3)
  let resid := List.zipWith (fun v t => (v <<< (t <<< 3)) % U32) masked tz
  let vals := List.zipWith (fun d p => (d + p) % U32) resid s.prior
  (⟨vals, s.dataPos + total, s.headerIdx + 1⟩, vals)

/-- the `while (true)` loop of `DecodeQuick_AVX2` with exact fuel. -/
def decQuickLoop (buf : List Nat) : Nat → Nat → QDecSt → List Nat
  | 0, _, _ => []
  | f + 1, cnt, s =>
    let r := decQuickBlockVals buf s
    if cnt < 8 then r.2.take cnt
    else r.2 ++ decQuickLoop buf f (cnt - 8) r.1

/-- model of `VectorCodec::DecodeQuick` (`DecodeQuick_AVX2`). -/
def DecodeQuick (buf : List Nat) (cnt : Nat) : List Nat :=
  decQuickLoop buf (cnt / 8 + 1) cnt ⟨List.replicate 8 0, (cnt + 1) / 2, 0⟩

/-- model of `VectorCodec::UpperBound`.  `size_t` arithmetic is modulo
`2^64`; `~31` is the 64-bit mask `2^64 - 32`. -/
def UpperBound (value_count : Nat) : Nat :=
  let h := ((value_count + 1) % 2 ^ 64) / 2
  let d := ((value_count + 31) % 2 ^ 64) &&& (2 ^ 64 - 32)
  (h + d) % 2 ^ 64

/-! Sequential restatement of the encoder, used to settle the claims about
the xor stage, the lane widths and the wire layout: the encoder loop is
factored into a per-block xor stage producing residual vectors and a
per-block packing stage consuming them.  `enc_factors` proves the factored
form equal to `Encode`. -/

/-- state of the xor stage: the 256-entry table, the slot indices saved from
the previous block, and the values gathered during the previous block. -/
structure XorSt where
  lookup : List Nat
  indices : List Nat
  xprior : List Nat

/-- the xor stage of one block, as the code performs it: the CURRENT block's
delta vector `d` is stored at the slots saved during the previous block,
the slots are recomputed from `d`, the emitted residual is `d` xor the
`xprior` gathered during the PREVIOUS block, and the next `xprior` is
gathered at the new slots (after the stores). -/
def xorStep (s : XorSt) (d : List Nat) : XorSt × List Nat :=
  let lookup' := storeLanes s.lookup s.indices d
  let indices' := d.map hashIdx
  let resid := List.zipWith (fun a b => a ^^^ b) d s.xprior
  let xprior' := gatherLanes lookup' indices'
  (⟨lookup', indices', xprior'⟩, resid)

/-- residual vectors of a sequence of delta vectors under the xor stage. -/
def xorRun : XorSt → List (List Nat) → List (List Nat)
  | _, [] => []
  | s, d :: ds =>
    let r := xorStep s d
    r.2 :: xorRun r.1 ds

/-- per-block delta vectors: each block minus the previous one, lane-wise
modulo 2^32, with a zero previous block at the start. -/
def deltaRun : List Nat → List (List Nat) → List (List Nat)
  | _, [] => []
  | p, v :: vs => List.zipWith sub32 v p :: deltaRun v vs

/-- the zero-initialized xor-stage state. -/
def xorSt0 : XorSt :=
  ⟨List.replicate 256 0, List.replicate 8 0, List.replicate 8 0⟩

/-- the residual vectors `Encode` emits for input `A`, one per block. -/
def residBlocks (A : List Nat) : List (List Nat) :=
  xorRun xorSt0 (deltaRun (List.replicate 8 0) (blocks A))

/-- state of the packing stage: buffer, payload cursor, header index. -/
structure PackSt where
  buf : List Nat
  outPos : Nat
  headerIdx : Nat

/-- byte stripping, payload stores and header store for one block of
residuals (lines 179-211 of the source). -/
def packBlock (s : PackSt) (resid : List Nat) : PackSt :=
  let tz := resid.map tzField
  let strip := List.zipWith (fun v t => v >>> (t <<< 3)) resid tz
  let widths := strip.map laneWidth
  let lzf := strip.map lzField
  let bp := writeLanes s.buf s.outPos strip widths
  ⟨store32 bp.1 (4 * s.headerIdx) (headerWord lzf tz), bp.2, s.headerIdx + 1⟩

/-- the factored encoder: the packing stage folded over the residual
vectors of the xor stage. -/
def packRun (A buf : List Nat) : Nat × List Nat :=
  let s := (residBlocks A).foldl packBlock ⟨buf, (A.length + 1) / 2, 0⟩
  (s.outPos, s.buf)

/-- the stripped words of one residual block: each lane shifted right by 8
times its trailing-zero-byte field. -/
def stripOf (resid : List Nat) : List Nat :=
  List.zipWith (fun v t => v >>> (t <<< 3)) resid (resid.map tzField)

/-- payload widths of one residual block: trailing-zero-byte stripping, then
the per-lane width. -/
def blockWidths (resid : List Nat) : List Nat :=
  (stripOf resid).map laneWidth

/-- the header word of one residual block. -/
def blockHeader (resid : List Nat) : Nat :=
  headerWord ((stripOf resid).map lzField) (resid.map tzField)

/-- total payload bytes of an encode invocation. -/
def payloadSize (A : List Nat) : Nat :=
  ((residBlocks A).map (fun r => (blockWidths r).sum)).sum

/-! Model of the xor stage exactly as claim C4 words it, for comparison with
the code's xor stage. -/

/-- state of claim C4's xor stage: the table, the slot indices saved during
the previous block, and the previous block's delta vector. -/
structure ClaimSt where
  lookup : List Nat
  savedIdx : List Nat
  prevDelta : List Nat

/-- one block of the xor stage as claim C4 describes it: first the PREVIOUS
block's residual is written at the slots saved during the previous block,
then the slots are recomputed from the current delta `d`, `xprior` is
gathered at the recomputed slots, and the residual is `d` xor `xprior`. -/
def claimStep (s : ClaimSt) (d : List Nat) : ClaimSt × List Nat :=
  let lookup' := storeLanes s.lookup s.savedIdx s.prevDelta
  let indices' := d.map hashIdx
  let xprior := gatherLanes lookup' indices'
  let resid := List.zipWith (fun a b => a ^^^ b) d xprior
  (⟨lookup', indices', d⟩, resid)

/-- residual vectors under claim C4's description of the xor stage. -/
def claimRun : ClaimSt → List (List Nat) → List (List Nat)
  | _, [] => []
  | s, d :: ds =>
    let r := claimStep s d
    r.2 :: claimRun r.1 ds

/-- the residual vectors claim C4's description would emit for input `A`
(zero-initialized table, slot indices and previous delta). -/
def claimResidBlocks (A : List Nat) : List (List Nat) :=
  claimRun ⟨List.replicate 256 0, List.replicate 8 0, List.replicate 8 0⟩
    (deltaRun (List.replicate 8 0) (blocks A))

/-- the encoder claim C4 describes: the packing stage applied to the
residuals of claim C4's xor stage. -/
def claimPackRun (A buf : List Nat) : Nat × List Nat :=
  let s := (claimResidBlocks A).foldl packBlock ⟨buf, (A.length + 1) / 2, 0⟩
  (s.outPos, s.buf)

/-- formalization of claim C6 for one input: the block headers fit in the
first `⌈N/2⌉` output bytes (in block order, with no gaps), and every header
byte of the final buffer is in place there. -/
def headerAreaClaim (A buf : List Nat) : Prop :=
  4 * ((A.length + 7) / 8) ≤ (A.length + 1) / 2 ∧
    ∀ b < (A.length + 7) / 8, ∀ j < 4,
      (Encode A buf).2.getD (4 * b + j) 0 =
        byte (blockHeader ((residBlocks A).getD b [])) j

end VectorCodec

namespace VectorCodec

lemma length_store32 (buf : List Nat) (p w : Nat) :
    (store32 buf p w).length = buf.length := by
  simp [store32]

lemma getD_store32_lt (buf : List Nat) (p w q : Nat) (h : q < p) :
    (store32 buf p w).getD q 0 = buf.getD q 0 := by
  simp only [store32, List.getD_eq_getElem?_getD]
  rw [List.getElem?_set_ne (by omega), List.getElem?_set_ne (by omega),
      List.getElem?_set_ne (by omega), List.getElem?_set_ne (by omega)]

lemma getD_store32_self (buf : List Nat) (p w j : Nat) (hj : j < 4)
    (hp : p + 3 < buf.length) :
    (store32 buf p w).getD (p + j) 0 = byte w j := by
  interval_cases j
  · simp only [store32, List.getD_eq_getElem?_getD, Nat.add_zero]
    rw [List.getElem?_set_ne (by omega), List.getElem?_set_ne (by omega),
        List.getElem?_set_ne (by omega), List.getElem?_set_self (by omega)]
    rfl
  · simp only [store32, List.getD_eq_getElem?_getD]
    rw [List.getElem?_set_ne (by omega), List.getElem?_set_ne (by omega),
        List.getElem?_set_self (by simp [List.length_set]; omega)]
    rfl
  · simp only [store32, List.getD_eq_getElem?_getD]
    rw [List.getElem?_set_ne (by omega),
        List.getElem?_set_self (by simp [List.length_set]; omega)]
    rfl
  · simp only [store32, List.getD_eq_getElem?_getD]
    rw [List.getElem?_set_self (by simp [List.length_set]; omega)]
    rfl

lemma writeLanes_len : ∀ (vals widths buf : List Nat) (pos : Nat),
    ((writeLanes buf pos vals widths).1).length = buf.length
  | _, [], _, _ => by simp [writeLanes]
  | [], _ :: _, _, _ => by simp [writeLanes]
  | v :: vs, w :: ws, buf, pos => by
    simp only [writeLanes, List.zip_cons_cons, List.foldl_cons]
    have := writeLanes_len vs ws (store32 buf pos v) (pos + w)
    simp only [writeLanes] at this
    rw [this, length_store32]

lemma writeLanes_snd : ∀ (vals widths buf : List Nat) (pos : Nat),
    widths.length ≤ vals.length →
    (writeLanes buf pos vals widths).2 = pos + widths.sum
  | _, [], _, _, _ => by simp [writeLanes]
  | [], _ :: _, _, _, h => by simp at h
  | v :: vs, w :: ws, buf, pos, h => by
    simp only [writeLanes, List.zip_cons_cons, List.foldl_cons]
    have := writeLanes_snd vs ws (store32 buf pos v) (pos + w)
      (by simpa using h)
    simp only [writeLanes] at this
    rw [this, List.sum_cons]
    omega

lemma writeLanes_getD_lt : ∀ (vals widths buf : List Nat) (pos q : Nat),
    q < pos → ((writeLanes buf pos vals widths).1).getD q 0 = buf.getD q 0
  | _, [], _, _, _, _ => by simp [writeLanes]
  | [], _ :: _, _, _, _, _ => by simp [writeLanes]
  | v :: vs, w :: ws, buf, pos, q, hq => by
    simp only [writeLanes, List.zip_cons_cons, List.foldl_cons]
    have := writeLanes_getD_lt vs ws (store32 buf pos v) (pos + w) q (by omega)
    simp only [writeLanes] at this
    rw [this, getD_store32_lt _ _ _ _ hq]

lemma packBlock_eq (buf : List Nat) (pos t : Nat) (r : List Nat) :
    packBlock ⟨buf, pos, t⟩ r =
      ⟨store32 (writeLanes buf pos (stripOf r) (blockWidths r)).1 (4 * t)
          (blockHeader r),
        (writeLanes buf pos (stripOf r) (blockWidths r)).2, t + 1⟩ := rfl

lemma packBlock_snd (buf : List Nat) (pos t : Nat) (r : List Nat) :
    (packBlock ⟨buf, pos, t⟩ r).outPos = pos + (blockWidths r).sum := by
  rw [packBlock_eq]
  exact writeLanes_snd _ _ _ _ (by simp [blockWidths])

end VectorCodec

namespace VectorCodec

lemma pack_fold_headers : ∀ (rs : List (List Nat)) (buf : List Nat) (pos t : Nat),
    4 * (t + rs.length) ≤ pos → 4 * (t + rs.length) ≤ buf.length →
    ((rs.foldl packBlock ⟨buf, pos, t⟩).buf.length = buf.length ∧
      (rs.foldl packBlock ⟨buf, pos, t⟩).outPos =
        pos + (rs.map fun r => (blockWidths r).sum).sum) ∧
    (∀ q, q < 4 * t →
      (rs.foldl packBlock ⟨buf, pos, t⟩).buf.getD q 0 = buf.getD q 0) ∧
    (∀ i, i < rs.length → ∀ j, j < 4 →
      (rs.foldl packBlock ⟨buf, pos, t⟩).buf.getD (4 * (t + i) + j) 0 =
        byte (blockHeader (rs.getD i [])) j)
  | [], buf, pos, t, _, _ => by
    refine ⟨⟨rfl, by simp⟩, fun q _ => rfl, fun i hi => by simp at hi⟩
  | r :: rs, buf, pos, t, hpos, hlen => by
    simp only [List.length_cons] at hpos hlen
    have hb1len : (writeLanes buf pos (stripOf r) (blockWidths r)).1.length
        = buf.length := writeLanes_len _ _ _ _
    have hb2len : (store32 (writeLanes buf pos (stripOf r) (blockWidths r)).1
        (4 * t) (blockHeader r)).length = buf.length := by
      rw [length_store32, hb1len]
    have hsnd : (writeLanes buf pos (stripOf r) (blockWidths r)).2
        = pos + (blockWidths r).sum := writeLanes_snd _ _ _ _ (by simp [blockWidths])
    have ih := pack_fold_headers rs
      (store32 (writeLanes buf pos (stripOf r) (blockWidths r)).1 (4 * t)
        (blockHeader r))
      ((writeLanes buf pos (stripOf r) (blockWidths r)).2) (t + 1)
      (by rw [hsnd]; omega) (by rw [hb2len]; omega)
    -- bytes of the freshly written header, and preservation of older bytes
    have hhdr : ∀ j, j < 4 →
        (store32 (writeLanes buf pos (stripOf r) (blockWidths r)).1 (4 * t)
          (blockHeader r)).getD (4 * t + j) 0 = byte (blockHeader r) j := by
      intro j hj
      exact getD_store32_self _ _ _ _ hj (by rw [hb1len]; omega)
    have hold : ∀ q, q < 4 * t →
        (store32 (writeLanes buf pos (stripOf r) (blockWidths r)).1 (4 * t)
          (blockHeader r)).getD q 0 = buf.getD q 0 := by
      intro q hq
      rw [getD_store32_lt _ _ _ _ hq, writeLanes_getD_lt _ _ _ _ _ (by omega)]
    simp only [List.foldl_cons, packBlock_eq]
    refine ⟨⟨by rw [ih.1.1, hb2len], ?_⟩, ?_, ?_⟩
    · rw [ih.1.2, hsnd]
      simp only [List.map_cons, List.sum_cons]
      omega
    · intro q hq
      rw [ih.2.1 q (by omega), hold q hq]
    · intro i hi j hj
      match i with
      | 0 =>
        have := ih.2.1 (4 * t + j) (by omega)
        simp only [Nat.add_zero]
        rw [this, hhdr j hj]
        rfl
      | i' + 1 =>
        have := ih.2.2 i' (by simpa using hi) j hj
        have harith : 4 * (t + 1 + i') = 4 * (t + (i' + 1)) := by omega
        rw [harith] at this
        simpa using this

end VectorCodec

namespace VectorCodec

lemma length_encBlocksGo : ∀ (n : Nat) (A : List Nat), (encBlocksGo n A).length = n
  | 0, _ => rfl
  | n + 1, A => by simp [encBlocksGo, length_encBlocksGo n]

lemma length_xorRun : ∀ (s : XorSt) (ds : List (List Nat)),
    (xorRun s ds).length = ds.length
  | _, [] => rfl
  | s, d :: ds => by simp [xorRun, length_xorRun]

lemma length_deltaRun : ∀ (p : List Nat) (vs : List (List Nat)),
    (deltaRun p vs).length = vs.length
  | _, [] => rfl
  | p, v :: vs => by simp [deltaRun, length_deltaRun]

lemma length_blocks (A : List Nat) : (blocks A).length = encIters A.length :=
  length_encBlocksGo _ _

lemma length_residBlocks (A : List Nat) :
    (residBlocks A).length = encIters A.length := by
  rw [residBlocks, length_xorRun, length_deltaRun, length_blocks]

lemma encBlocksGo_getLast? : ∀ (n : Nat) (A : List Nat),
    (encBlocksGo (n + 1) A).getLast? = some (loadBlock (A.drop (8 * n)))
  | 0, A => by simp [encBlocksGo]
  | n + 1, A => by
    show (loadBlock A :: encBlocksGo (n + 1) (A.drop 8)).getLast? = _
    rw [show encBlocksGo (n + 1) (A.drop 8) =
        loadBlock (A.drop 8) :: encBlocksGo n ((A.drop 8).drop 8) from rfl,
      List.getLast?_cons_cons,
      ← show encBlocksGo (n + 1) (A.drop 8) =
        loadBlock (A.drop 8) :: encBlocksGo n ((A.drop 8).drop 8) from rfl,
      encBlocksGo_getLast? n (A.drop 8), List.drop_drop,
      show 8 + 8 * n = 8 * (n + 1) from by omega]

lemma exclusive_go_len : ∀ (ws l : List Nat) (n : Nat),
    ((ws.foldl (fun acc w => (acc.1 ++ [acc.2], acc.2 + w)) (l, n)).1).length =
      l.length + ws.length
  | [], _, _ => by simp
  | w :: ws, l, n => by
    simp only [List.foldl_cons]
    rw [exclusive_go_len ws]
    simp only [List.length_append, List.length_cons, List.length_nil]
    omega

lemma exclusive_len (ws : List Nat) : (exclusive ws).length = ws.length := by
  simpa using exclusive_go_len ws [] 0

lemma decBlockVals_len (buf : List Nat) (s : DecSt)
    (hx : s.xprior.length = 8) (hp : s.prior.length = 8) :
    (decBlockVals buf s).2.length = 8 ∧
      (decBlockVals buf s).1.xprior.length = 8 ∧
      (decBlockVals buf s).1.prior.length = 8 := by
  simp only [decBlockVals, gatherLanes, List.length_zipWith, List.length_map,
    List.length_range, exclusive_len, hx, hp]
  simp

lemma decLoop_length : ∀ (f cnt : Nat) (buf : List Nat) (s : DecSt),
    cnt < 8 * f → s.xprior.length = 8 → s.prior.length = 8 →
    (decLoop buf f cnt s).length = cnt
  | 0, cnt, _, _, h, _, _ => absurd h (by omega)
  | f + 1, cnt, buf, s, h, hx, hp => by
    have hd := decBlockVals_len buf s hx hp
    simp only [decLoop]
    by_cases hc : cnt < 8
    · rw [if_pos hc, List.length_take, hd.1]
      omega
    · rw [if_neg hc, List.length_append, hd.1,
        decLoop_length f (cnt - 8) buf _ (by omega) hd.2.1 hd.2.2]
      omega

lemma Decode_length (buf : List Nat) (cnt : Nat) :
    (Decode buf cnt).length = cnt :=
  decLoop_length _ _ _ _ (by omega) (by simp) (by simp)

lemma laneWidth_mem (v : Nat) : laneWidth v ∈ ([0, 2, 3, 4] : List Nat) := by
  unfold laneWidth
  have h : clz32 v ≤ 32 := Nat.sub_le _ _
  have hl : clz32 v >>> 3 ≤ 4 := by
    rw [Nat.shiftRight_eq_div_pow]
    omega
  set l := clz32 v >>> 3 with hldef
  interval_cases l <;> simp

lemma blockWidths_getD_mem (r : List Nat) (k : Nat) :
    (blockWidths r).getD k 0 ∈ ([0, 2, 3, 4] : List Nat) := by
  by_cases hk : k < (blockWidths r).length
  · rw [List.getD_eq_getElem?_getD, List.getElem?_eq_getElem hk]
    have hk' : k < (stripOf r).length := by
      simpa [blockWidths] using hk
    simp only [blockWidths, List.getElem_map, Option.getD_some]
    exact laneWidth_mem _
  · rw [List.getD_eq_default _ _ (by omega)]
    simp

lemma land_high_mask (x : Nat) (hx : x < 2 ^ 64) :
    x &&& (2 ^ 64 - 32) = x - x % 32 := by
  apply Nat.eq_of_testBit_eq
  intro i
  have hsub : x - x % 32 = (x >>> 5) <<< 5 := by
    rw [Nat.shiftRight_eq_div_pow, Nat.shiftLeft_eq]
    show x - x % 32 = x / 2 ^ 5 * 2 ^ 5
    have : (2 : Nat) ^ 5 = 32 := by norm_num
    rw [this]
    omega
  have hm : (2 ^ 64 - 32 : Nat) = (2 ^ 59 - 1) <<< 5 := by
    rw [Nat.shiftLeft_eq]
    norm_num
  rw [hsub, Nat.testBit_land, hm, Nat.testBit_shiftLeft, Nat.testBit_shiftLeft,
    Nat.testBit_shiftRight]
  rw [Nat.testBit_two_pow_sub_one]
  by_cases h5 : 5 ≤ i
  · have hi : 5 + (i - 5) = i := by omega
    rw [hi]
    by_cases h64 : i < 64
    · simp [h5, show i - 5 < 59 by omega]
    · have hxi : x.testBit i = false :=
        Nat.testBit_lt_two_pow
          (lt_of_lt_of_le hx (Nat.pow_le_pow_right (by norm_num) (by omega)))
      simp [hxi, show ¬(i - 5 < 59) by omega]
  · simp [h5]

end VectorCodec

namespace VectorCodec

lemma enc_step (lk pr xp idx buf : List Nat) (pos h : Nat) (v : List Nat) :
    encBlock ⟨lk, pr, xp, idx, buf, pos, h⟩ v =
      (let d := List.zipWith sub32 v pr
       let x := xorStep ⟨lk, idx, xp⟩ d
       let p := packBlock ⟨buf, pos, h⟩ x.2
       ⟨x.1.lookup, v, x.1.xprior, x.1.indices, p.buf, p.outPos, p.headerIdx⟩) := rfl

lemma enc_fold : ∀ (bs : List (List Nat)) (lk pr xp idx buf : List Nat) (pos h : Nat),
    ((bs.foldl encBlock ⟨lk, pr, xp, idx, buf, pos, h⟩).outPos,
     (bs.foldl encBlock ⟨lk, pr, xp, idx, buf, pos, h⟩).buf) =
    (((xorRun ⟨lk, idx, xp⟩ (deltaRun pr bs)).foldl packBlock ⟨buf, pos, h⟩).outPos,
     ((xorRun ⟨lk, idx, xp⟩ (deltaRun pr bs)).foldl packBlock ⟨buf, pos, h⟩).buf)
  | [], _, _, _, _, _, _, _ => rfl
  | v :: bs, lk, pr, xp, idx, buf, pos, h => by
    simp only [List.foldl_cons, deltaRun, xorRun, enc_step]
    exact enc_fold bs _ v _ _ _ _ (h + 1)

lemma enc_factors (A buf : List Nat) : Encode A buf = packRun A buf := by
  have h := enc_fold (blocks A) (List.replicate 256 0) (List.replicate 8 0)
    (List.replicate 8 0) (List.replicate 8 0) buf ((A.length + 1) / 2) 0
  unfold Encode packRun residBlocks xorSt0
  exact Prod.ext (congrArg Prod.fst h) (congrArg Prod.snd h)

/-- Claim C1: the round-trip `Decode(Encode(A), N) = A` fails on the code at
`N = 1`, `A = [0x01010101]`: the single block header is a 4-byte word stored
at offset 0 while the payload area starts at byte `⌈1/2⌉ = 1`, so the header
store clobbers the lane's payload bytes and decode reconstructs
`0x01FFFCFF`.  The Quick variant fails identically. -/
theorem c1_roundtrip_fails :
    Decode (Encode [0x01010101] (List.replicate 33 0)).2 1 ≠ [0x01010101] ∧
      DecodeQuick (EncodeQuick [0x01010101] (List.replicate 33 0)).2 1 ≠
        [0x01010101] ∧
      Decode (Encode [0x01010101] (List.replicate 33 0)).2 1 = [0x01FFFCFF] :=
  ⟨by decide, by decide, by decide⟩

/-- Claim C2: at `N = 9` with all nine words `0x01010101`, every lane of both
blocks emits 4 payload bytes (the seven padding lanes of the tail block have
huge residuals), so `Encode` returns `5 + 64 = 69` bytes, exceeding both the
spec's bound `⌈9/2⌉ + 4·9 = 41` and the code's `UpperBound 9 = 37`. -/
theorem c2_encode_exceeds_upperbound :
    (Encode (List.replicate 9 0x01010101) (List.replicate 80 0)).1 = 69 ∧
      UpperBound 9 = 37 ∧
      ¬((Encode (List.replicate 9 0x01010101) (List.replicate 80 0)).1 ≤
        (9 + 1) / 2 + 4 * 9) ∧
      ¬((Encode (List.replicate 9 0x01010101) (List.replicate 80 0)).1 ≤
        UpperBound 9) :=
  ⟨by decide, by decide, by decide, by decide⟩

/-- Claim C3, counterexample: `UpperBound 16 = 8 + 32 = 40`, not
`⌈16/2⌉ + 4·16 = 72`. -/
theorem c3_counterexample : UpperBound 16 ≠ (16 + 1) / 2 + 4 * 16 := by decide

/-- Claim C3, amended: `UpperBound N` is `⌈N/2⌉` plus `N + 31` rounded DOWN
to a multiple of 32 (that is, `N` aligned up to 32), not `⌈N/2⌉ + 4N`. -/
theorem c3_upperbound_closed_form (n : Nat) (h : n + 31 < 2 ^ 64) :
    UpperBound n = ((n + 1) / 2 + ((n + 31) - (n + 31) % 32)) % 2 ^ 64 := by
  have h1 : n + 1 < 2 ^ 64 := lt_of_le_of_lt (by omega) h
  unfold UpperBound
  rw [Nat.mod_eq_of_lt h1, Nat.mod_eq_of_lt h, land_high_mask _ h]

/-- witness for `c3_upperbound_closed_form` at `n = 8`. -/
theorem c3_upperbound_witness :
    UpperBound 8 = ((8 + 1) / 2 + ((8 + 31) - (8 + 31) % 32)) % 2 ^ 64 :=
  c3_upperbound_closed_form 8 (by decide)

/-- Claim C4, counterexample: on two blocks of constants `0x100` and `0x200`
(all deltas `0x100`, hash slot 1), the xor stage claim C4 describes (store
the previous delta at its own saved slot, then gather at the slot of the
current delta) would predict block 1 exactly and emit 24 bytes, while the
code (which stores the CURRENT delta at the previous block's slot and xors
with the value gathered during the previous block) emits 40 bytes and
different residuals. -/
theorem c4_counterexample :
    (Encode (List.replicate 8 0x100 ++ List.replicate 8 0x200)
        (List.replicate 80 0)).1 ≠
      (claimPackRun (List.replicate 8 0x100 ++ List.replicate 8 0x200)
        (List.replicate 80 0)).1 ∧
      residBlocks (List.replicate 8 0x100 ++ List.replicate 8 0x200) ≠
        claimResidBlocks (List.replicate 8 0x100 ++ List.replicate 8 0x200) :=
  ⟨by decide, by decide⟩

/-- Claim C4, amended: for every block `b`, the xor stage writes the CURRENT
block's residual `delta[b][k]` into `lookup` at the slot saved during block
`b-1`, recomputes `i_k = ((delta[b][k] >> 8) XOR (delta[b][k] >> 24)) AND
0xFF`, gathers `lookup[i_k]` as the `xprior` for block `b+1`, and emits
`resid[b][k] = delta[b][k] XOR xprior[k]` with the `xprior` gathered during
block `b-1`; the table, indices and xprior start at zero.  Formally:
`Encode` equals the packing stage applied to the residuals of `xorRun`,
the sequential statement of exactly that recurrence. -/
theorem c4_xor_stage (A buf : List Nat) : Encode A buf = packRun A buf :=
  enc_factors A buf

/-- Claim C5, counterexample: for input block `[0x00010101, 0, ..., 0]` the
first lane's residual has one leading zero byte and no trailing zero bytes,
so its payload width is 3 bytes (`Encode` returns `4 + 3 = 7`), and
`3 ∉ {0, 1, 2, 4}`. -/
theorem c5_counterexample :
    blockWidths ((residBlocks [0x00010101, 0, 0, 0, 0, 0, 0, 0]).getD 0 []) =
        [3, 0, 0, 0, 0, 0, 0, 0] ∧
      (Encode [0x00010101, 0, 0, 0, 0, 0, 0, 0] (List.replicate 36 0)).1 = 7 ∧
      ¬((3 : Nat) ∈ ([0, 1, 2, 4] : List Nat)) :=
  ⟨by decide, by decide, by decide⟩

/-- Claim C5, amended: every per-lane payload width lies in `{0, 2, 3, 4}`
(residual widths 4,3,2,2,0 for 0,1,2,3,4 leading zero bytes after
stripping), and the packing stage advances the payload cursor by exactly
the sum of the block's widths. -/
theorem c5_widths (r : List Nat) (k : Nat) (s : PackSt) :
    (blockWidths r).getD k 0 ∈ ([0, 2, 3, 4] : List Nat) ∧
      (packBlock s r).outPos = s.outPos + (blockWidths r).sum := by
  refine ⟨blockWidths_getD_mem r k, ?_⟩
  cases s
  exact packBlock_snd _ _ _ _

/-- Claim C6, counterexample: at `N = 1` the single 4-byte header cannot lie
within the first `⌈1/2⌉ = 1` output bytes; indeed after
`Encode [0x01010101]` the byte at the payload start offset 1 is the header
byte `0xFF`, not the payload byte `0x01` the claimed layout requires. -/
theorem c6_counterexample :
    ¬headerAreaClaim [0x01010101] (List.replicate 33 0) ∧
      (Encode [0x01010101] (List.replicate 33 0)).2.getD 1 0 = 0xFF :=
  ⟨fun h => absurd h.1 (by decide), by decide⟩

/-- Claim C6, amended: the block headers are 32-bit little-endian words at
output bytes `4b..4b+3` in block order with no gaps (lane `k`'s `lz` field
at bits `2k..2k+1`, its `tz` field at bits `16+2k..17+2k`, per
`headerWord`), and the payload cursor starts at byte `⌈N/2⌉`; when
`N ≡ 0 (mod 8)` the header area is exactly the first `⌈N/2⌉` bytes, as the
claim states, but for `N mod 8 ∈ {1..6}` the header area `4⌈N/8⌉` exceeds
`⌈N/2⌉` and the last header overwrites the first payload bytes. -/
theorem c6_header_layout (A buf : List Nat) (h8 : A.length % 8 = 0)
    (h0 : 0 < A.length) (hbuf : (A.length + 1) / 2 ≤ buf.length) :
    (∀ b, b < A.length / 8 → ∀ j, j < 4 →
      (Encode A buf).2.getD (4 * b + j) 0 =
        byte (blockHeader ((residBlocks A).getD b [])) j) ∧
      (Encode A buf).1 = (A.length + 1) / 2 + payloadSize A := by
  have hfac := enc_factors A buf
  have hlen : (residBlocks A).length = A.length / 8 := by
    rw [length_residBlocks]
    unfold encIters
    omega
  have hle1 : 4 * (0 + (residBlocks A).length) ≤ (A.length + 1) / 2 := by
    rw [hlen]
    omega
  have hp := pack_fold_headers (residBlocks A) buf ((A.length + 1) / 2) 0 hle1
    (le_trans hle1 hbuf)
  constructor
  · intro b hb j hj
    have hb' : b < (residBlocks A).length := by omega
    have := hp.2.2 b hb' j hj
    rw [hfac]
    show ((residBlocks A).foldl packBlock
      ⟨buf, (A.length + 1) / 2, 0⟩).buf.getD (4 * b + j) 0 = _
    simpa using this
  · rw [hfac]
    show ((residBlocks A).foldl packBlock
      ⟨buf, (A.length + 1) / 2, 0⟩).outPos = _
    rw [hp.1.2]
    rfl

/-- witness for `c6_header_layout`: eight zero floats, a 36-byte buffer. -/
theorem c6_header_layout_witness :
    (Encode (List.replicate 8 0) (List.replicate 36 0)).2.getD 0 0 =
        byte (blockHeader ((residBlocks (List.replicate 8 0)).getD 0 [])) 0 ∧
      (Encode (List.replicate 8 0) (List.replicate 36 0)).1 =
        ((List.replicate 8 (0 : Nat)).length + 1) / 2 +
          payloadSize (List.replicate 8 0) := by
  have h := c6_header_layout (List.replicate 8 0) (List.replicate 36 0)
    (by decide) (by decide) (by decide)
  exact ⟨by simpa using h.1 0 (by decide) 0 (by decide), h.2⟩

/-- Claim C7: when `N mod 8 ≠ 0` the encoder's last loop iteration processes
the tail values padded with zero words to a full 8-lane block, and the
decoder writes exactly `N` reconstructed values (the padded lanes of the
final block are reconstructed but discarded by the tail `memcpy`). -/
theorem c7_tail_padding (A buf : List Nat) (h0 : 0 < A.length)
    (h8 : A.length % 8 ≠ 0) :
    (blocks A).length = A.length / 8 + 1 ∧
      (blocks A).getLast? =
        some (A.drop (8 * (A.length / 8)) ++
          List.replicate (8 - A.length % 8) 0) ∧
      (Decode buf A.length).length = A.length := by
  have hit : encIters A.length = A.length / 8 + 1 := by
    unfold encIters
    omega
  refine ⟨by rw [length_blocks, hit], ?_, Decode_length _ _⟩
  rw [blocks, hit, encBlocksGo_getLast?]
  have hXlen : (A.drop (8 * (A.length / 8))).length = A.length % 8 := by
    rw [List.length_drop]
    omega
  rw [loadBlock, List.take_of_length_le (by omega), hXlen,
    Nat.min_eq_left (by omega)]

/-- witness for `c7_tail_padding` at `A = [5]`. -/
theorem c7_tail_padding_witness :
    (blocks [5]).length = [5].length / 8 + 1 ∧
      (blocks [5]).getLast? =
        some ([5].drop (8 * ([5].length / 8)) ++
          List.replicate (8 - [5].length % 8) 0) ∧
      (Decode (List.replicate 8 0) [5].length).length = [5].length :=
  c7_tail_padding [5] (List.replicate 8 0) (by decide) (by decide)

/-- Claim C8, counterexample: for eight zero floats the single block header
is not `0x00000000`. -/
theorem c8_counterexample :
    load32 (Encode (List.replicate 8 0) (List.replicate 36 0)).2 0 ≠ 0 := by
  decide

/-- Claim C8, amended: for `N = 8`, `A` eight zero floats, all residuals are
zero and all widths are 0, and `Encode` returns exactly 4 bytes — one block
header and no payload — but the header is `0xFFFFFFFF` (zero residuals get
`lz = tz = 3` in every lane), not `0x00000000`. -/
theorem c8_zero_block :
    (Encode (List.replicate 8 0) (List.replicate 36 0)).1 = 4 ∧
      load32 (Encode (List.replicate 8 0) (List.replicate 36 0)).2 0 =
        0xFFFFFFFF ∧
      residBlocks (List.replicate 8 0) = [List.replicate 8 0] ∧
      blockWidths (List.replicate 8 0) = List.replicate 8 0 ∧
      payloadSize (List.replicate 8 0) = 0 :=
  ⟨by decide, by decide, by decide, by decide, by decide⟩

/-- Claim C9: at `N = 0` the do-while body still runs once: `Encode` returns
0 but stores eight 4-byte zero words at bytes 0..3 and then the header word
`0xFFFFFFFF` there, modifying the output buffer (here a sentinel buffer of
`0xAA` bytes); `Decode` writes nothing to its output. -/
theorem c9_n0_writes :
    (Encode [] (List.replicate 8 0xAA)).1 = 0 ∧
      (Encode [] (List.replicate 8 0xAA)).2 ≠ List.replicate 8 0xAA ∧
      (Encode [] (List.replicate 8 0xAA)).2 =
        [0xFF, 0xFF, 0xFF, 0xFF, 0xAA, 0xAA, 0xAA, 0xAA] ∧
      Decode (List.replicate 8 0xAA) 0 = [] :=
  ⟨by decide, by decide, by decide, by decide⟩

/-- Claim C10: each lane payload and each header is stored as a full 4-byte
word while the cursor advances only by the lane's width, so bytes past the
returned count are modified: for eight zero floats (all widths 0) both
encoders return 4 yet zero the sentinel bytes at offsets 4..7, i.e. up to
`ret + 3`. -/
theorem c10_overhang :
    (Encode (List.replicate 8 0) (List.replicate 36 0xAA)).1 = 4 ∧
      (Encode (List.replicate 8 0) (List.replicate 36 0xAA)).2.getD (4 + 3) 0
        = 0 ∧
      (List.replicate 36 (0xAA : Nat)).getD (4 + 3) 0 = 0xAA ∧
      (EncodeQuick (List.replicate 8 0) (List.replicate 36 0xAA)).1 = 4 ∧
      (EncodeQuick (List.replicate 8 0)
        (List.replicate 36 0xAA)).2.getD (4 + 3) 0 = 0 :=
  ⟨by decide, by decide, by decide, by decide, by decide⟩

end VectorCodec
